import Mathlib

/-!
Verification of the Collection Transform Tool (`src/operators.py`).

Embedding choices:
* World matrices in the host are 4x4 affine matrices; every matrix the tool
  builds (`Matrix.Translation`, `Matrix.Rotation`, `Matrix.Scale`) is affine and
  affine matrices are closed under multiplication, so a matrix is embedded as a
  3x3 linear block `lin` plus a translation column `tr` (`Mat4`), with
  `(A*B).lin = A.lin * B.lin` and `(A*B).tr = A.lin ⬝ B.tr + A.tr`, exactly the
  4x4 product restricted to the affine subgroup.  `Mat4.tr` mirrors
  `Matrix.translation`; `Mat4.mulPoint` mirrors `matrix @ Vector(v)` (a 4x4
  matrix applied to a 3D point).
* Scalars are ℚ (exact arithmetic; the claims are about exact algebraic
  identities and the source's `==` comparisons).
* `Matrix.Rotation(angle, 4, axis)` evaluates `cos`/`sin` of the angle; those
  are transcendental, so the embedding threads an abstract trig interpretation
  `Trig` (a pair of functions ℚ → ℚ) and builds the rotation matrices from
  `Trig.cos a` / `Trig.sin a`, keeping every matrix identity parametric in the
  (unconstrained) cosine/sine values — none of the verified claims needs
  `cos² + sin² = 1`.
* Objects are identified by `name`; Blender object names are unique scene-wide
  (`bpy.data.objects` is keyed by name), which the source relies on when it
  keys the preview snapshot dictionary by `obj.name`.
-/

namespace BCTT

/-- 3D vector with rational coordinates. -/
@[ext]
structure Vec3 where
  x : ℚ
  y : ℚ
  z : ℚ
deriving DecidableEq

instance : Add Vec3 := ⟨fun a b => ⟨a.x + b.x, a.y + b.y, a.z + b.z⟩⟩

instance : Neg Vec3 := ⟨fun a => ⟨-a.x, -a.y, -a.z⟩⟩

instance : Zero Vec3 := ⟨⟨0, 0, 0⟩⟩

/-- Componentwise division by a scalar (Python `Vector / n`). -/
def Vec3.divQ (v : Vec3) (q : ℚ) : Vec3 := ⟨v.x / q, v.y / q, v.z / q⟩

/-- Componentwise minimum (the per-axis `min` loop of the bbox code). -/
def vmin (a b : Vec3) : Vec3 := ⟨min a.x b.x, min a.y b.y, min a.z b.z⟩

/-- Componentwise maximum (the per-axis `max` loop of the bbox code). -/
def vmax (a b : Vec3) : Vec3 := ⟨max a.x b.x, max a.y b.y, max a.z b.z⟩

/-- `Vector.length_squared` from mathutils. -/
def Vec3.length_squared (v : Vec3) : ℚ := v.x * v.x + v.y * v.y + v.z * v.z

/-- 3x3 matrix, row-major. -/
@[ext]
structure Mat3 where
  a00 : ℚ
  a01 : ℚ
  a02 : ℚ
  a10 : ℚ
  a11 : ℚ
  a12 : ℚ
  a20 : ℚ
  a21 : ℚ
  a22 : ℚ
deriving DecidableEq

/-- 3x3 matrix product. -/
def Mat3.mul (A B : Mat3) : Mat3 :=
  ⟨A.a00 * B.a00 + A.a01 * B.a10 + A.a02 * B.a20,
   A.a00 * B.a01 + A.a01 * B.a11 + A.a02 * B.a21,
   A.a00 * B.a02 + A.a01 * B.a12 + A.a02 * B.a22,
   A.a10 * B.a00 + A.a11 * B.a10 + A.a12 * B.a20,
   A.a10 * B.a01 + A.a11 * B.a11 + A.a12 * B.a21,
   A.a10 * B.a02 + A.a11 * B.a12 + A.a12 * B.a22,
   A.a20 * B.a00 + A.a21 * B.a10 + A.a22 * B.a20,
   A.a20 * B.a01 + A.a21 * B.a11 + A.a22 * B.a21,
   A.a20 * B.a02 + A.a21 * B.a12 + A.a22 * B.a22⟩

instance : Mul Mat3 := ⟨Mat3.mul⟩

instance : One Mat3 := ⟨⟨1, 0, 0, 0, 1, 0, 0, 0, 1⟩⟩

/-- Matrix–vector product. -/
def Mat3.mulVec (A : Mat3) (v : Vec3) : Vec3 :=
  ⟨A.a00 * v.x + A.a01 * v.y + A.a02 * v.z,
   A.a10 * v.x + A.a11 * v.y + A.a12 * v.z,
   A.a20 * v.x + A.a21 * v.y + A.a22 * v.z⟩

/-- Affine 4x4 matrix: linear block + translation column (last row `0 0 0 1`). -/
@[ext]
structure Mat4 where
  lin : Mat3
  tr : Vec3
deriving DecidableEq

/-- Affine 4x4 product (the 4x4 matrix product restricted to affine parts). -/
def Mat4.mul (A B : Mat4) : Mat4 := ⟨A.lin * B.lin, A.lin.mulVec B.tr + A.tr⟩

instance : Mul Mat4 := ⟨Mat4.mul⟩

instance : One Mat4 := ⟨⟨1, 0⟩⟩

/-- `matrix @ Vector(v)`: a 4x4 affine matrix applied to a 3D point. -/
def Mat4.mulPoint (A : Mat4) (v : Vec3) : Vec3 := A.lin.mulVec v + A.tr

/-- `Matrix.Translation(v)`. -/
def Translation (v : Vec3) : Mat4 := ⟨1, v⟩

/-- `Matrix.Rotation(a, 4, 'X')`, given `c = cos a`, `s = sin a`. -/
def RotationX (c s : ℚ) : Mat4 := ⟨⟨1, 0, 0, 0, c, -s, 0, s, c⟩, 0⟩

/-- `Matrix.Rotation(a, 4, 'Y')`, given `c = cos a`, `s = sin a`. -/
def RotationY (c s : ℚ) : Mat4 := ⟨⟨c, 0, s, 0, 1, 0, -s, 0, c⟩, 0⟩

/-- `Matrix.Rotation(a, 4, 'Z')`, given `c = cos a`, `s = sin a`. -/
def RotationZ (c s : ℚ) : Mat4 := ⟨⟨c, -s, 0, s, c, 0, 0, 0, 1⟩, 0⟩

/-- `Matrix.Scale(f, 4, (1,0,0))`: scale by `f` along the X axis. -/
def ScaleX (f : ℚ) : Mat4 := ⟨⟨f, 0, 0, 0, 1, 0, 0, 0, 1⟩, 0⟩

/-- `Matrix.Scale(f, 4, (0,1,0))`: scale by `f` along the Y axis. -/
def ScaleY (f : ℚ) : Mat4 := ⟨⟨1, 0, 0, 0, f, 0, 0, 0, 1⟩, 0⟩

/-- `Matrix.Scale(f, 4, (0,0,1))`: scale by `f` along the Z axis. -/
def ScaleZ (f : ℚ) : Mat4 := ⟨⟨1, 0, 0, 0, 1, 0, 0, 0, f⟩, 0⟩

/-- Abstract interpretation of `math.cos` / `math.sin` on rational angle values
(the real functions are transcendental; every claim proved below is parametric
in this interpretation). -/
structure Trig where
  cos : ℚ → ℚ
  sin : ℚ → ℚ

/-- `_build_rotation_scale(rot_rad, scale)`: the combined `R @ S` matrix,
`R = Rz @ Ry @ Rx`, `S = Sx @ Sy @ Sz`, no translation, no pivot. -/
def build_rotation_scale (tg : Trig) (rot_rad scale : Vec3) : Mat4 :=
  let Rx := RotationX (tg.cos rot_rad.x) (tg.sin rot_rad.x)
  let Ry := RotationY (tg.cos rot_rad.y) (tg.sin rot_rad.y)
  let Rz := RotationZ (tg.cos rot_rad.z) (tg.sin rot_rad.z)
  let R := Rz * Ry * Rx
  let Sx := ScaleX scale.x
  let Sy := ScaleY scale.y
  let Sz := ScaleZ scale.z
  let S := Sx * Sy * Sz
  R * S

/-- `_build_full_transform(loc, RS, pivot)`:
`full = T_translate @ T_pivot @ RS @ T_pivot_inv`. -/
def build_full_transform (loc : Vec3) (RS : Mat4) (pivot : Vec3) : Mat4 :=
  let T := Translation loc
  let T_pivot := Translation pivot
  let T_pivot_inv := Translation (-pivot)
  T * T_pivot * RS * T_pivot_inv

/-- A host object as this addon sees it: stable name, optional parent (by
name — Blender object names are unique), and the local bounding-box corners
(`obj.bound_box`; empty list models an object without geometry, which is
falsy in the source's `if obj.bound_box` test).  The mutable `matrix_world`
field lives in the world-state map `String → Mat4`, keyed by name. -/
structure Obj where
  name : String
  parent : Option String
  bound_box : List Vec3
deriving DecidableEq

/-- A collection: named, direct objects plus nested child collections. -/
inductive Collection where
  | mk (name : String) (objects : List Obj) (children : List Collection)

/-- The collection's name. -/
def Collection.name : Collection → String
  | .mk n _ _ => n

mutual

/-- `_collect_all_objects`: recursively collect all objects of a collection and
its sub-collections (the Python version accumulates into a `set`; the list is
deduplicated by callers, mirroring set semantics). -/
def collect_all_objects : Collection → List Obj
  | .mk _ objs children => objs ++ collect_all_objects_list children

/-- The recursion of `_collect_all_objects` over the child-collection list. -/
def collect_all_objects_list : List Collection → List Obj
  | [] => []
  | c :: cs => collect_all_objects c ++ collect_all_objects_list cs

end

/-- The flattened object set of a collection (Python `set` semantics: each
object counted once). -/
def all_objects_of (c : Collection) : List Obj :=
  (collect_all_objects c).dedup

/-- `_get_root_objects`: objects whose parent is `None` or whose parent is not
in the collection's flattened set (membership by name, since object names are
the unique identities). -/
def get_root_objects (objs : List Obj) : List Obj :=
  objs.filter fun o =>
    match o.parent with
    | none => true
    | some p => !(objs.any fun q => q.name = p)

/-- The preview snapshot `{obj_name: original_matrix_world}` as an association
list in insertion order; `[]` models both Python `None` and the empty dict
(both falsy). -/
abbrev Snap : Type := List (String × Mat4)

/-- Dictionary lookup `snapshot[name]` (`none` when `name not in snapshot`). -/
def Snap.find (s : Snap) (n : String) : Option Mat4 :=
  List.lookup n s

/-- Python truthiness of the snapshot (`if snapshot:`). -/
def Snap.truthy (s : Snap) : Bool :=
  match s with
  | [] => false
  | _ :: _ => true

/-- The keys of the snapshot. -/
def Snap.keys (s : Snap) : List String :=
  s.map Prod.fst

/-- The source's recurring idiom
`snapshot[name] if snapshot and name in snapshot else <live matrix>`,
with `fallback` the live matrix read at that moment. -/
def orig_of (s : Snap) (n : String) (fallback : Mat4) : Mat4 :=
  match (if s.truthy then s.find n else none) with
  | some m => m
  | none => fallback

/-- `_bounding_box_center_from_matrices`'s per-object contribution: the world
positions of the bound-box corners under the object's (resolved) world matrix,
or the matrix translation alone for objects without geometry. -/
def bbox_points (o : Obj) (m : Mat4) : List Vec3 :=
  if o.bound_box.isEmpty then [m.tr] else o.bound_box.map (fun v => m.mulPoint v)

/-- One min/max accumulation step of the bbox loop.  The Python code starts
from `(+inf, -inf)` vectors; `none` models the untouched initial accumulator
(the final `mn.x == inf` test is exactly `acc = none`, since every processed
point makes every component finite). -/
def bbox_fold (acc : Option (Vec3 × Vec3)) (p : Vec3) : Option (Vec3 × Vec3) :=
  match acc with
  | none => some (p, p)
  | some (mn, mx) => some (vmin mn p, vmax mx p)

/-- `_bounding_box_center_from_matrices(obj_matrix_pairs)`. -/
def bounding_box_center_from_matrices (pairs : List (Obj × Mat4)) : Vec3 :=
  let acc := pairs.foldl (fun a pm => (bbox_points pm.1 pm.2).foldl bbox_fold a) none
  match acc with
  | none => ⟨0, 0, 0⟩
  | some (mn, mx) => (mn + mx).divQ 2

/-- `_resolve_pivot(pivot_mode, context, root_objects, snapshot)`.
`W` is the world state (each object's current `matrix_world`, by name);
`cursor` is `context.scene.cursor.location`; `active` is
`context.active_object` (by name, its live matrix being `W name`). -/
def resolve_pivot (pivot_mode : String) (cursor : Vec3) (active : Option String)
    (W : String → Mat4) (root_objects : List Obj) (snapshot : Snap) : Vec3 :=
  if pivot_mode = "CURSOR" then cursor
  else
    let activeRes : Option Vec3 :=
      if pivot_mode = "ACTIVE_ELEMENT" then
        match active with
        | some a => some (orig_of snapshot a (W a)).tr
        | none => none
      else none
    match activeRes with
    | some v => v
    | none =>
      let pairs : List (Obj × Mat4) :=
        if snapshot.truthy then
          root_objects.filterMap fun o => (snapshot.find o.name).map (fun m => (o, m))
        else
          root_objects.map fun o => (o, W o.name)
      if pairs.isEmpty then ⟨0, 0, 0⟩
      else if pivot_mode = "BOUNDING_BOX_CENTER" then
        bounding_box_center_from_matrices pairs
      else
        (pairs.foldl (fun (t : Vec3) (pm : Obj × Mat4) => t + pm.2.tr) 0).divQ pairs.length

/-- `obj.matrix_world = m`: overwrite one object's world matrix. -/
def write_world (W : String → Mat4) (n : String) (m : Mat4) : String → Mat4 :=
  fun k => if k = n then m else W k

/-- `_apply_transform_to_objects(root_objects, loc, rot_rad, scale, pivot_mode,
context, snapshot)`, as a world-state transformer. -/
def apply_transform_to_objects (tg : Trig) (root_objects : List Obj)
    (loc rot_rad scale : Vec3) (pivot_mode : String) (cursor : Vec3)
    (active : Option String) (snapshot : Snap) (W : String → Mat4) :
    String → Mat4 :=
  let RS := build_rotation_scale tg rot_rad scale
  if pivot_mode = "INDIVIDUAL_ORIGINS" then
    root_objects.foldl
      (fun Wc o =>
        let orig := orig_of snapshot o.name (Wc o.name)
        let pivot_i := orig.tr
        let full := build_full_transform loc RS pivot_i
        write_world Wc o.name (full * orig))
      W
  else
    let pivot := resolve_pivot pivot_mode cursor active W root_objects snapshot
    let full := build_full_transform loc RS pivot
    root_objects.foldl
      (fun Wc o =>
        let orig := orig_of snapshot o.name (Wc o.name)
        write_world Wc o.name (full * orig))
      W

/-- The mutable state this addon touches: every object's `matrix_world`
(`W`, keyed by unique object name), the module-level preview snapshot
`_preview` and its collection tag `_preview_collection`, and the three
WindowManager delta fields `bctt_loc` / `bctt_rot` / `bctt_scale`. -/
structure PreviewState where
  W : String → Mat4
  preview : Snap
  preview_collection : String
  loc : Vec3
  rot : Vec3
  scale : Vec3

/-- The host-context inputs an operator invocation reads: the trig
interpretation, the 3D cursor, the active object (by name), the scene pivot
mode, the names of objects existing in `bpy.data.objects`, and the collection
currently selected in the Outliner. -/
structure Host where
  tg : Trig
  cursor : Vec3
  active : Option String
  pivot_mode : String
  sceneNames : List String
  sel : Option Collection

/-- `_restore_objects_from_snapshot()`: write each snapshotted matrix back to
the object of that name, skipping names that no longer exist in the scene. -/
def restore_objects_from_snapshot (sceneNames : List String) (snap : Snap)
    (W : String → Mat4) : String → Mat4 :=
  snap.foldl
    (fun Wc kv => if sceneNames.contains kv.1 then write_world Wc kv.1 kv.2 else Wc)
    W

/-- `_apply_realtime_preview(context)` as a state transformer (the view-layer
update and redraw tagging are host-side effects with no bearing on state). -/
def apply_realtime_preview (H : Host) (s : PreviewState) : PreviewState :=
  match H.sel with
  | none => s
  | some collection =>
    let all_objects := all_objects_of collection
    let root_objects := get_root_objects all_objects
    if root_objects.isEmpty then s
    else
      -- Reset snapshot if the collection changed
      let s1 :=
        if collection.name ≠ s.preview_collection ∧ s.preview.truthy then
          { s with W := restore_objects_from_snapshot H.sceneNames s.preview s.W
                 , preview := [] }
        else s
      -- Take snapshot on first call
      let s2 :=
        if s1.preview.truthy then s1
        else
          { s1 with preview_collection := collection.name
                  , preview := root_objects.map fun o => (o.name, s1.W o.name) }
      { s2 with
        W := apply_transform_to_objects H.tg root_objects s2.loc s2.rot s2.scale
               H.pivot_mode H.cursor H.active s2.preview s2.W }

/-- `cancel_realtime_preview(context)`: restore originals, clear snapshot and
tag, reset the three delta fields to defaults. -/
def cancel_realtime_preview (H : Host) (s : PreviewState) : PreviewState :=
  let s1 :=
    if s.preview.truthy then
      { s with W := restore_objects_from_snapshot H.sceneNames s.preview s.W
             , preview := []
             , preview_collection := "" }
    else s
  { s1 with loc := ⟨0, 0, 0⟩, rot := ⟨0, 0, 0⟩, scale := ⟨1, 1, 1⟩ }

/-- A user edit of the three delta fields; the property update callback then
runs `_apply_realtime_preview` (preview enabled). -/
structure FieldEdit where
  loc : Vec3
  rot : Vec3
  scale : Vec3

/-- One field edit while real-time preview is enabled: store the new field
values, then run the update callback. -/
def preview_edit (H : Host) (e : FieldEdit) (s : PreviewState) : PreviewState :=
  apply_realtime_preview H { s with loc := e.loc, rot := e.rot, scale := e.scale }

/-- A sequence of field edits while real-time preview stays enabled. -/
def run_preview (H : Host) (es : List FieldEdit) (s : PreviewState) : PreviewState :=
  es.foldl (fun sc e => preview_edit H e sc) s

/-- Operator return status. -/
inductive OpStatus where
  | FINISHED
  | CANCELLED
deriving DecidableEq

/-- Result of `BCTT_OT_apply_transform.execute`: the returned status, the
levels of the reports issued (message text elided), and the final state. -/
structure ExecResult where
  status : OpStatus
  reports : List String
  state : PreviewState

/-- The no-op guard of `execute`: `loc.length_squared == 0.0 and
rot_rad.length_squared == 0.0 and scale == Vector((1,1,1))`. -/
def is_noop (loc rot_rad scale : Vec3) : Bool :=
  loc.length_squared = 0 ∧ rot_rad.length_squared = 0 ∧ scale = (⟨1, 1, 1⟩ : Vec3)

/-- `BCTT_OT_apply_transform.execute(context)`.  The optional mesh-data bake
(`_bake_transforms_to_data`, enabled by `wm.bctt_apply_transforms`) is
delegated wholesale to a host operator (`bpy.ops.object.transform_apply`)
outside this repository; it is passed in as the opaque world-state
transformer `bake`. -/
def execute (H : Host) (apply_transforms : Bool)
    (bake : (String → Mat4) → String → Mat4) (s : PreviewState) : ExecResult :=
  match H.sel with
  | none => ⟨.CANCELLED, ["ERROR"], s⟩
  | some collection =>
    let all_objects := all_objects_of collection
    let root_objects := get_root_objects all_objects
    if root_objects.isEmpty then ⟨.CANCELLED, ["WARNING"], s⟩
    else if is_noop s.loc s.rot s.scale then ⟨.CANCELLED, ["INFO"], s⟩
    else
      -- In realtime mode: restore originals first so the undo step captures
      -- the pre-preview state, then apply fresh from the snapshot.
      let snapshot : Snap := if s.preview.truthy then s.preview else []
      let s1 :=
        if snapshot.truthy then
          { s with W := restore_objects_from_snapshot H.sceneNames s.preview s.W
                 , preview := []
                 , preview_collection := "" }
        else s
      let W2 := apply_transform_to_objects H.tg root_objects s.loc s.rot s.scale
                  H.pivot_mode H.cursor H.active snapshot s1.W
      let W3 := if apply_transforms then bake W2 else W2
      ⟨.FINISHED, ["INFO"],
        { s1 with W := W3, loc := ⟨0, 0, 0⟩, rot := ⟨0, 0, 0⟩, scale := ⟨1, 1, 1⟩ }⟩

/-- The `(object, matrix)` pairs built inside `_resolve_pivot`: snapshot
matrices (for objects present in the snapshot) when a snapshot is supplied,
else live matrices.  Extracted for use in theorem statements. -/
def resolved_pairs (root_objects : List Obj) (snapshot : Snap)
    (W : String → Mat4) : List (Obj × Mat4) :=
  if snapshot.truthy then
    root_objects.filterMap fun o => (snapshot.find o.name).map (fun m => (o, m))
  else
    root_objects.map fun o => (o, W o.name)

/-- Arithmetic mean of a list of vectors (origin for the empty list); the
spec's MEDIAN_POINT formula, stated independently of the source's
accumulation loop. -/
def mean_vec (vs : List Vec3) : Vec3 :=
  (vs.foldr (fun v t => v + t) 0).divQ vs.length

/-- Midpoint of the axis-aligned bounding box of a point list (origin for the
empty list); the spec's BOUNDING_BOX_CENTER formula, stated independently of
the source's running min/max loop. -/
def aabb_midpoint (pts : List Vec3) : Vec3 :=
  match pts with
  | [] => ⟨0, 0, 0⟩
  | p :: rest => ((rest.foldl vmin p) + (rest.foldl vmax p)).divQ 2

/-- Claim C3's asserted MEDIAN_POINT value: the mean of the translation
components over the FULL flattened object set (not just the roots), written
from the claim's words for comparison against `resolve_pivot`. -/
def claim_median_full_set (objs : List Obj) (W : String → Mat4) : Vec3 :=
  mean_vec (objs.map fun o => (W o.name).tr)

/-- `Full_k` of claim C1: the full transform `_apply_transform_to_objects`
derives for object `o` from a single edit's delta values, the snapshot, and
the host context evaluated at world state `W` (per-object pivot for
INDIVIDUAL_ORIGINS, one shared pivot otherwise). -/
def preview_full (H : Host) (e : FieldEdit) (root_objects : List Obj)
    (snapshot : Snap) (W : String → Mat4) (o : Obj) : Mat4 :=
  let RS := build_rotation_scale H.tg e.rot e.scale
  if H.pivot_mode = "INDIVIDUAL_ORIGINS" then
    build_full_transform e.loc RS (orig_of snapshot o.name (W o.name)).tr
  else
    build_full_transform e.loc RS
      (resolve_pivot H.pivot_mode H.cursor H.active W root_objects snapshot)

/-- The common shape of both write loops of `_apply_transform_to_objects`:
each iteration reads the current state only at the written object's own name. -/
def fold_write (f : Obj → Mat4 → Mat4) (roots : List Obj)
    (W : String → Mat4) : String → Mat4 :=
  roots.foldl (fun Wc o => write_world Wc o.name (f o (Wc o.name))) W

/-- The PREVIEWING-state invariant of claim C1: a snapshot is live, tagged
with the selected collection, and covers every root object (as the capture
step guarantees for a fixed root set). -/
def preview_invariant (_H : Host) (col : Collection) (s : PreviewState) : Prop :=
  s.preview.truthy = true
    ∧ s.preview_collection = col.name
    ∧ ∀ o ∈ get_root_objects (all_objects_of col),
        (Snap.find s.preview o.name).isSome = true

/-! ### Concrete fixtures used by witnesses and counterexamples -/

/-- A concrete trig interpretation: angle `0` has cosine `1` and sine `0`;
every other angle value is read as a quarter turn (cosine `0`, sine `1`). -/
def fixTrig : Trig := ⟨fun q => if q = 0 then 1 else 0, fun q => if q = 0 then 0 else 1⟩

/-- Example object at the origin. -/
def fixA : Obj := ⟨"A", none, []⟩

/-- Example object. -/
def fixB : Obj := ⟨"B", none, []⟩

/-- Example object. -/
def fixC : Obj := ⟨"C", none, []⟩

/-- Example child object parented to `fixA`. -/
def fixChild : Obj := ⟨"Child", some "A", []⟩

/-- Example collection with three parentless objects. -/
def fixCol : Collection := .mk "Col" [fixA, fixB, fixC] []

/-- Example collection where `Child` is parented to `A` (so only `A` is a
root). -/
def fixColParented : Collection := .mk "ColP" [fixA, fixChild] []

/-- Empty example collection. -/
def fixColEmpty : Collection := .mk "Empty" [] []

/-- Example world state: `A` at the origin, `B` at `(2,0,0)`, `C` at
`(4,0,0)`, `Child` at `(10,0,0)`. -/
def fixW : String → Mat4 := fun n =>
  if n = "B" then Translation ⟨2, 0, 0⟩
  else if n = "C" then Translation ⟨4, 0, 0⟩
  else if n = "Child" then Translation ⟨10, 0, 0⟩
  else 1

/-- Snapshot of `fixW` over the roots of `fixCol`. -/
def fixSnap : Snap :=
  [("A", 1), ("B", Translation ⟨2, 0, 0⟩), ("C", Translation ⟨4, 0, 0⟩)]

/-- Example host: median pivot, no active object, `fixCol` selected. -/
def fixHost : Host :=
  ⟨fixTrig, ⟨0, 0, 0⟩, none, "MEDIAN_POINT", ["A", "B", "C", "Child"], some fixCol⟩

/-- Example IDLE state over `fixW`. -/
def fixStateIdle : PreviewState := ⟨fixW, [], "", ⟨0, 0, 0⟩, ⟨0, 0, 0⟩, ⟨1, 1, 1⟩⟩

/-- Example PREVIEWING state: snapshot `fixSnap` tagged with `fixCol`. -/
def fixStatePreviewing : PreviewState :=
  ⟨fixW, fixSnap, "Col", ⟨0, 0, 0⟩, ⟨0, 0, 0⟩, ⟨1, 1, 1⟩⟩

/-- Example edit: translate by `(1,0,0)` and scale by `2`. -/
def fixEdit : FieldEdit := ⟨⟨1, 0, 0⟩, ⟨0, 0, 0⟩, ⟨2, 2, 2⟩⟩

/-- Example edit: translate by `(0,0,1)`. -/
def fixEdit2 : FieldEdit := ⟨⟨0, 0, 1⟩, ⟨0, 0, 0⟩, ⟨1, 1, 1⟩⟩

/-- Example PREVIEWING state with non-default deltas (translate `(1,0,0)`,
scale `2`). -/
def fixStatePreviewing2 : PreviewState :=
  ⟨fixW, fixSnap, "Col", ⟨1, 0, 0⟩, ⟨0, 0, 0⟩, ⟨2, 2, 2⟩⟩

/-- Example host with no collection selected in the Outliner. -/
def fixHostNone : Host :=
  ⟨fixTrig, ⟨0, 0, 0⟩, none, "MEDIAN_POINT", ["A", "B", "C", "Child"], none⟩

/-- Example host with the empty collection selected. -/
def fixHostEmpty : Host :=
  ⟨fixTrig, ⟨0, 0, 0⟩, none, "MEDIAN_POINT", ["A", "B", "C", "Child"], some fixColEmpty⟩

/-- Example host with the parented collection (`A` root, `Child` non-root)
selected. -/
def fixHostParented : Host :=
  ⟨fixTrig, ⟨0, 0, 0⟩, none, "MEDIAN_POINT", ["A", "B", "C", "Child"], some fixColParented⟩

/-! ### Basic algebraic lemmas about the embedded matrix types -/

@[simp]
theorem Vec3.add_def (a b : Vec3) : a + b = ⟨a.x + b.x, a.y + b.y, a.z + b.z⟩ := rfl

@[simp]
theorem Vec3.neg_def (a : Vec3) : -a = ⟨-a.x, -a.y, -a.z⟩ := rfl

@[simp]
theorem Vec3.zero_def : (0 : Vec3) = ⟨0, 0, 0⟩ := rfl

@[simp]
theorem Mat3.mul_def (A B : Mat3) : A * B = Mat3.mul A B := rfl

@[simp]
theorem Mat3.one_def : (1 : Mat3) = ⟨1, 0, 0, 0, 1, 0, 0, 0, 1⟩ := rfl

@[simp]
theorem Mat4.mul_lin (A B : Mat4) : (A * B).lin = A.lin * B.lin := rfl

@[simp]
theorem Mat4.mul_tr (A B : Mat4) : (A * B).tr = A.lin.mulVec B.tr + A.tr := rfl

@[simp]
theorem Mat4.one_affine : (1 : Mat4) = ⟨1, 0⟩ := rfl

theorem Mat3.one_mul (A : Mat3) : 1 * A = A := by
  simp [Mat3.mul]

theorem Mat3.mul_one (A : Mat3) : A * 1 = A := by
  simp [Mat3.mul]

theorem Mat3.one_mulVec (v : Vec3) : (1 : Mat3).mulVec v = v := by
  simp [Mat3.mulVec]

/-- The rotation/scale matrix built by `_build_rotation_scale` has no
translation component (all six factors are linear). -/
theorem build_rotation_scale_tr (tg : Trig) (rot_rad scale : Vec3) :
    (build_rotation_scale tg rot_rad scale).tr = 0 := by
  simp [build_rotation_scale, RotationX, RotationY, RotationZ,
    ScaleX, ScaleY, ScaleZ, Mat3.mulVec]

/-- The linear block of `_build_full_transform` is that of `RS`: the pivot
conjugation and the translation only affect the translation column. -/
theorem build_full_transform_lin (loc : Vec3) (RS : Mat4) (pivot : Vec3) :
    (build_full_transform loc RS pivot).lin = RS.lin := by
  simp [build_full_transform, Translation]
  ext <;> simp [Mat3.mul]

/-- The translation column of `_build_full_transform`. -/
theorem build_full_transform_tr (loc : Vec3) (RS : Mat4) (pivot : Vec3) :
    (build_full_transform loc RS pivot).tr
      = RS.lin.mulVec (-pivot) + (RS.tr + pivot + loc) := by
  simp [build_full_transform, Translation, Mat3.mul, Mat3.mulVec]
  exact ⟨by ring, by ring, by ring⟩

/-- Key geometric fact behind INDIVIDUAL_ORIGINS: a full transform with zero
translation delta, pivoted at a matrix's own translation, composes with that
matrix without moving its translation column, while the linear block (the
orientation/scale) is multiplied by `RS.lin`. -/
theorem full_about_own_origin (RS M : Mat4) (h0 : RS.tr = 0) :
    (build_full_transform 0 RS M.tr * M).tr = M.tr
      ∧ (build_full_transform 0 RS M.tr * M).lin = RS.lin * M.lin := by
  constructor
  · rw [Mat4.mul_tr, build_full_transform_tr, build_full_transform_lin, h0]
    ext <;> simp [Mat3.mulVec] <;> ring
  · rw [Mat4.mul_lin, build_full_transform_lin]

/-! ### Lemmas about snapshot lookup and the write loops -/

theorem Snap.find_cons_eq (kv : String × Mat4) (tl : Snap) :
    Snap.find (kv :: tl) kv.1 = some kv.2 := by
  simp [Snap.find, List.lookup]

theorem Snap.find_cons_ne (kv : String × Mat4) (tl : Snap) (n : String)
    (h : n ≠ kv.1) : Snap.find (kv :: tl) n = Snap.find tl n := by
  have hb : (n == kv.1) = false := beq_eq_false_iff_ne.mpr h
  simp [Snap.find, List.lookup, hb]

theorem Snap.find_isSome_iff (s : Snap) (n : String) :
    (s.find n).isSome = true ↔ n ∈ s.keys := by
  induction s with
  | nil => simp [Snap.find, Snap.keys]
  | cons kv tl ih =>
    by_cases h : n = kv.1
    · subst h
      simp [Snap.find_cons_eq, Snap.keys]
    · rw [Snap.find_cons_ne _ _ _ h]
      simp only [Snap.keys, List.map_cons, List.mem_cons]
      rw [ih]
      simp [Snap.keys, h]

theorem Snap.find_of_mem (s : Snap) (hN : s.keys.Nodup) (n : String) (m : Mat4)
    (hmem : (n, m) ∈ s) : s.find n = some m := by
  induction s with
  | nil => simp at hmem
  | cons kv tl ih =>
    simp only [Snap.keys, List.map_cons, List.nodup_cons] at hN
    rcases List.mem_cons.mp hmem with h | h
    · subst h
      exact Snap.find_cons_eq _ _
    · have hkeys : n ∈ Snap.keys tl :=
        List.mem_map.mpr ⟨(n, m), h, rfl⟩
      have hne : n ≠ kv.1 := fun he => hN.1 (he ▸ hkeys)
      rw [Snap.find_cons_ne _ _ _ hne]
      exact ih hN.2 h

/-- Keys of a snapshot captured from a root list by a comprehension
`{o.name: g o for o in roots}`. -/
theorem snap_capture_keys (roots : List Obj) (g : Obj → Mat4) :
    (Snap.keys (roots.map fun o => (o.name, g o))) = roots.map Obj.name := by
  simp [Snap.keys, List.map_map]

/-- Looking up a captured snapshot at a root's own name. -/
theorem snap_capture_find (roots : List Obj) (g : Obj → Mat4) (o : Obj)
    (ho : o ∈ roots) (hN : (roots.map Obj.name).Nodup) :
    Snap.find (roots.map fun r => (r.name, g r)) o.name = some (g o) := by
  apply Snap.find_of_mem
  · rw [snap_capture_keys]
    exact hN
  · exact List.mem_map.mpr ⟨o, ho, rfl⟩

@[simp]
theorem write_world_same (W : String → Mat4) (n : String) (m : Mat4) :
    write_world W n m n = m := by
  simp [write_world]

theorem write_world_other (W : String → Mat4) (n k : String) (m : Mat4)
    (h : k ≠ n) : write_world W n m k = W k := by
  simp [write_world, h]

theorem fold_write_pres (f : Obj → Mat4 → Mat4) (roots : List Obj)
    (W : String → Mat4) (n : String) (hn : n ∉ roots.map Obj.name) :
    fold_write f roots W n = W n := by
  induction roots generalizing W with
  | nil => rfl
  | cons r rs ih =>
    simp only [List.map_cons, List.mem_cons, not_or] at hn
    rw [fold_write, List.foldl_cons]
    rw [show (List.foldl (fun Wc o => write_world Wc o.name (f o (Wc o.name))) _ rs)
          = fold_write f rs (write_world W r.name (f r (W r.name))) from rfl]
    rw [ih _ hn.2, write_world_other _ _ _ _ hn.1]

theorem fold_write_at (f : Obj → Mat4 → Mat4) (roots : List Obj)
    (W : String → Mat4) (hN : (roots.map Obj.name).Nodup) (o : Obj)
    (ho : o ∈ roots) :
    fold_write f roots W o.name = f o (W o.name) := by
  induction roots generalizing W with
  | nil => simp at ho
  | cons r rs ih =>
    simp only [List.map_cons, List.nodup_cons] at hN
    rcases List.mem_cons.mp ho with h | h
    · subst h
      rw [fold_write, List.foldl_cons]
      rw [show (List.foldl (fun Wc o => write_world Wc o.name (f o (Wc o.name))) _ rs)
            = fold_write f rs (write_world W o.name (f o (W o.name))) from rfl]
      rw [fold_write_pres _ _ _ _ hN.1, write_world_same]
    · have hne : o.name ≠ r.name := by
        intro he
        exact hN.1 (he ▸ List.mem_map.mpr ⟨o, h, rfl⟩)
      rw [fold_write, List.foldl_cons]
      rw [show (List.foldl (fun Wc o => write_world Wc o.name (f o (Wc o.name))) _ rs)
            = fold_write f rs (write_world W r.name (f r (W r.name))) from rfl]
      rw [ih _ hN.2 h, write_world_other _ _ _ _ hne]

theorem restore_pres (sceneNames : List String) (snap : Snap)
    (W : String → Mat4) (n : String) (hn : n ∉ snap.keys) :
    restore_objects_from_snapshot sceneNames snap W n = W n := by
  induction snap generalizing W with
  | nil => rfl
  | cons kv tl ih =>
    simp only [Snap.keys, List.map_cons, List.mem_cons, not_or] at hn
    rw [restore_objects_from_snapshot, List.foldl_cons]
    rw [show (List.foldl _ _ tl : String → Mat4)
          = restore_objects_from_snapshot sceneNames tl
              (if sceneNames.contains kv.1 then write_world W kv.1 kv.2 else W) from rfl]
    rw [ih _ hn.2]
    split
    · exact write_world_other _ _ _ _ hn.1
    · rfl

theorem restore_at (sceneNames : List String) (snap : Snap) (W : String → Mat4)
    (hN : snap.keys.Nodup) (n : String) (m : Mat4) (hmem : (n, m) ∈ snap)
    (hs : sceneNames.contains n = true) :
    restore_objects_from_snapshot sceneNames snap W n = m := by
  induction snap generalizing W with
  | nil => simp at hmem
  | cons kv tl ih =>
    simp only [Snap.keys, List.map_cons, List.nodup_cons] at hN
    rw [restore_objects_from_snapshot, List.foldl_cons]
    rw [show (List.foldl _ _ tl : String → Mat4)
          = restore_objects_from_snapshot sceneNames tl
              (if sceneNames.contains kv.1 then write_world W kv.1 kv.2 else W) from rfl]
    rcases List.mem_cons.mp hmem with h | h
    · rw [← h] at hN ⊢
      rw [restore_pres _ _ _ _ hN.1]
      have hmem2 : n ∈ sceneNames := by simpa using hs
      simp [hmem2, write_world]
    · exact ih _ hN.2 h

/-! ### Characterization of `_apply_transform_to_objects` -/

theorem Snap.truthy_iff (s : Snap) : s.truthy = true ↔ s ≠ [] := by
  cases s <;> simp [Snap.truthy]

theorem orig_of_eq_find (s : Snap) (n : String) (fb : Mat4) (m : Mat4)
    (hs : s.truthy = true) (h : s.find n = some m) : orig_of s n fb = m := by
  simp [orig_of, hs, h]

theorem orig_of_not_truthy (s : Snap) (n : String) (fb : Mat4)
    (hs : s.truthy = false) : orig_of s n fb = fb := by
  simp [orig_of, hs]

theorem orig_of_find_none (s : Snap) (n : String) (fb : Mat4)
    (h : s.find n = none) : orig_of s n fb = fb := by
  cases hs : s.truthy <;> simp [orig_of, hs, h]

/-- The INDIVIDUAL_ORIGINS branch of `_apply_transform_to_objects` is the
write loop with each object's own baseline translation as pivot. -/
theorem apply_transform_individual (tg : Trig) (roots : List Obj)
    (loc rot scale cursor : Vec3) (active : Option String) (snap : Snap)
    (W : String → Mat4) :
    apply_transform_to_objects tg roots loc rot scale "INDIVIDUAL_ORIGINS"
        cursor active snap W
      = fold_write
          (fun o m =>
            build_full_transform loc (build_rotation_scale tg rot scale)
                (orig_of snap o.name m).tr
              * orig_of snap o.name m)
          roots W := by
  simp [apply_transform_to_objects, fold_write]

/-- Any other pivot mode takes the uniform-pivot branch: one shared pivot,
resolved before the write loop from the pre-write world state. -/
theorem apply_transform_uniform (tg : Trig) (roots : List Obj)
    (loc rot scale : Vec3) (mode : String) (cursor : Vec3)
    (active : Option String) (snap : Snap) (W : String → Mat4)
    (hmode : mode ≠ "INDIVIDUAL_ORIGINS") :
    apply_transform_to_objects tg roots loc rot scale mode cursor active snap W
      = fold_write
          (fun o m =>
            build_full_transform loc (build_rotation_scale tg rot scale)
                (resolve_pivot mode cursor active W roots snap)
              * orig_of snap o.name m)
          roots W := by
  simp [apply_transform_to_objects, fold_write, hmode]

/-- `_apply_transform_to_objects` writes only the root objects' matrices. -/
theorem apply_transform_pres (tg : Trig) (roots : List Obj)
    (loc rot scale : Vec3) (mode : String) (cursor : Vec3)
    (active : Option String) (snap : Snap) (W : String → Mat4) (n : String)
    (hn : n ∉ roots.map Obj.name) :
    apply_transform_to_objects tg roots loc rot scale mode cursor active snap W n
      = W n := by
  by_cases hmode : mode = "INDIVIDUAL_ORIGINS"
  · subst hmode
    rw [apply_transform_individual]
    exact fold_write_pres _ _ _ _ hn
  · rw [apply_transform_uniform _ _ _ _ _ _ _ _ _ _ hmode]
    exact fold_write_pres _ _ _ _ hn

/-- Value written at a root under the uniform-pivot branch. -/
theorem apply_transform_at_uniform (tg : Trig) (roots : List Obj)
    (loc rot scale : Vec3) (mode : String) (cursor : Vec3)
    (active : Option String) (snap : Snap) (W : String → Mat4)
    (hmode : mode ≠ "INDIVIDUAL_ORIGINS")
    (hN : (roots.map Obj.name).Nodup) (o : Obj) (ho : o ∈ roots) :
    apply_transform_to_objects tg roots loc rot scale mode cursor active snap W
        o.name
      = build_full_transform loc (build_rotation_scale tg rot scale)
            (resolve_pivot mode cursor active W roots snap)
          * orig_of snap o.name (W o.name) := by
  rw [apply_transform_uniform _ _ _ _ _ _ _ _ _ _ hmode]
  exact fold_write_at _ _ _ hN o ho

/-- Value written at a root under the INDIVIDUAL_ORIGINS branch. -/
theorem apply_transform_at_individual (tg : Trig) (roots : List Obj)
    (loc rot scale cursor : Vec3) (active : Option String) (snap : Snap)
    (W : String → Mat4) (hN : (roots.map Obj.name).Nodup) (o : Obj)
    (ho : o ∈ roots) :
    apply_transform_to_objects tg roots loc rot scale "INDIVIDUAL_ORIGINS"
        cursor active snap W o.name
      = build_full_transform loc (build_rotation_scale tg rot scale)
            (orig_of snap o.name (W o.name)).tr
          * orig_of snap o.name (W o.name) := by
  rw [apply_transform_individual]
  exact fold_write_at _ _ _ hN o ho

/-- With a supplied snapshot, `_resolve_pivot` reads the live world state only
through an active object that is absent from the snapshot; if the two states
agree there (or no such read happens), the resolved pivots coincide. -/
theorem resolve_pivot_congr (mode : String) (cursor : Vec3)
    (active : Option String) (W1 W2 : String → Mat4) (roots : List Obj)
    (snap : Snap) (hs : snap.truthy = true)
    (ha : ∀ a, active = some a → snap.find a = none → W1 a = W2 a) :
    resolve_pivot mode cursor active W1 roots snap
      = resolve_pivot mode cursor active W2 roots snap := by
  unfold resolve_pivot
  by_cases hc : mode = "CURSOR"
  · simp [hc]
  · simp only [hc, if_false]
    have hpairs :
        (if snap.truthy then
            roots.filterMap fun o => (snap.find o.name).map (fun m => (o, m))
          else roots.map fun o => (o, W1 o.name))
          = (if snap.truthy then
              roots.filterMap fun o => (snap.find o.name).map (fun m => (o, m))
            else roots.map fun o => (o, W2 o.name)) := by
      simp [hs]
    by_cases hae : mode = "ACTIVE_ELEMENT"
    · cases hactive : active with
      | none => simp [hae, hactive, hpairs]
      | some a =>
        cases hfind : snap.find a with
        | none =>
          have := ha a hactive hfind
          simp [hae, hactive, orig_of, hs, hfind, this]
        | some m =>
          simp [hae, hactive, orig_of, hs, hfind]
    · simp [hae, hpairs]

/-! ### The PREVIEWING → PREVIEWING step -/

/-- A field edit in PREVIEWING state (snapshot live and tagged with the
selected collection): the snapshot and tag are kept, the fields are stored,
and the world state is rewritten by `_apply_transform_to_objects` from the
stored snapshot. -/
theorem preview_edit_previewing (H : Host) (col : Collection)
    (hsel : H.sel = some col) (e : FieldEdit) (s : PreviewState)
    (hroots : (get_root_objects (all_objects_of col)).isEmpty = false)
    (hpre : s.preview.truthy = true)
    (htag : s.preview_collection = col.name) :
    preview_edit H e s
      = { W := apply_transform_to_objects H.tg
                 (get_root_objects (all_objects_of col)) e.loc e.rot e.scale
                 H.pivot_mode H.cursor H.active s.preview s.W
        , preview := s.preview
        , preview_collection := s.preview_collection
        , loc := e.loc, rot := e.rot, scale := e.scale } := by
  unfold preview_edit apply_realtime_preview
  simp [hsel, hroots, htag, hpre]

/-- Running any edit sequence from a PREVIEWING state keeps the snapshot and
its tag, and never writes a non-root object's matrix. -/
theorem run_preview_previewing (H : Host) (col : Collection)
    (hsel : H.sel = some col)
    (hroots : (get_root_objects (all_objects_of col)).isEmpty = false)
    (es : List FieldEdit) (s : PreviewState)
    (hinv : preview_invariant H col s) :
    (run_preview H es s).preview = s.preview
      ∧ (run_preview H es s).preview_collection = s.preview_collection
      ∧ (∀ n, n ∉ (get_root_objects (all_objects_of col)).map Obj.name →
          (run_preview H es s).W n = s.W n) := by
  induction es generalizing s with
  | nil => exact ⟨rfl, rfl, fun n _ => rfl⟩
  | cons e es ih =>
    obtain ⟨hpre, htag, hkeys⟩ := hinv
    have hstep := preview_edit_previewing H col hsel e s hroots hpre htag
    have hinv1 : preview_invariant H col (preview_edit H e s) := by
      rw [hstep]
      exact ⟨hpre, htag, hkeys⟩
    have hrun : run_preview H (e :: es) s = run_preview H es (preview_edit H e s) := by
      simp [run_preview]
    obtain ⟨p1, p2, p3⟩ := ih (preview_edit H e s) hinv1
    refine ⟨?_, ?_, ?_⟩
    · rw [hrun, p1, hstep]
    · rw [hrun, p2, hstep]
    · intro n hn
      rw [hrun, p3 n hn, hstep]
      exact apply_transform_pres _ _ _ _ _ _ _ _ _ _ _ hn

/-- The PREVIEWING invariant is preserved by any edit sequence. -/
theorem run_preview_invariant (H : Host) (col : Collection)
    (hsel : H.sel = some col)
    (hroots : (get_root_objects (all_objects_of col)).isEmpty = false)
    (es : List FieldEdit) (s : PreviewState)
    (hinv : preview_invariant H col s) :
    preview_invariant H col (run_preview H es s) := by
  obtain ⟨p1, p2, _⟩ := run_preview_previewing H col hsel hroots es s hinv
  refine ⟨?_, ?_, ?_⟩
  · rw [p1]; exact hinv.1
  · rw [p2]; exact hinv.2.1
  · intro o ho
    rw [p1]
    exact hinv.2.2 o ho

/-- Value written at a snapshotted root by a single PREVIEWING edit: exactly
`Full · baseline`, with `Full` as recorded by `preview_full`. -/
theorem preview_edit_at_root (H : Host) (col : Collection)
    (hsel : H.sel = some col) (e : FieldEdit) (s : PreviewState)
    (hroots : (get_root_objects (all_objects_of col)).isEmpty = false)
    (hpre : s.preview.truthy = true)
    (htag : s.preview_collection = col.name)
    (hN : ((get_root_objects (all_objects_of col)).map Obj.name).Nodup)
    (o : Obj) (ho : o ∈ get_root_objects (all_objects_of col)) :
    (preview_edit H e s).W o.name
      = preview_full H e (get_root_objects (all_objects_of col)) s.preview s.W o
          * orig_of s.preview o.name (s.W o.name) := by
  rw [preview_edit_previewing H col hsel e s hroots hpre htag]
  show apply_transform_to_objects H.tg (get_root_objects (all_objects_of col))
      e.loc e.rot e.scale H.pivot_mode H.cursor H.active s.preview s.W o.name = _
  by_cases hmode : H.pivot_mode = "INDIVIDUAL_ORIGINS"
  · rw [hmode, apply_transform_at_individual _ _ _ _ _ _ _ _ _ hN o ho]
    simp [preview_full, hmode]
  · rw [apply_transform_at_uniform _ _ _ _ _ _ _ _ _ _ hmode hN o ho]
    simp [preview_full, hmode]

/-- `preview_full` evaluated at two world states that agree outside the root
set is the same matrix, provided the snapshot covers the roots (the pivot can
then read the live state only at a non-root active object). -/
theorem preview_full_congr (H : Host) (e : FieldEdit) (roots : List Obj)
    (snap : Snap) (W1 W2 : String → Mat4) (o : Obj)
    (hs : snap.truthy = true)
    (hkeyso : (snap.find o.name).isSome = true)
    (hroots_keys : ∀ r ∈ roots, (snap.find r.name).isSome = true)
    (hagree : ∀ n, n ∉ roots.map Obj.name → W1 n = W2 n) :
    preview_full H e roots snap W1 o = preview_full H e roots snap W2 o := by
  unfold preview_full
  by_cases hmode : H.pivot_mode = "INDIVIDUAL_ORIGINS"
  · obtain ⟨m, hm⟩ := Option.isSome_iff_exists.mp hkeyso
    rw [if_pos hmode, if_pos hmode,
      orig_of_eq_find _ _ _ _ hs hm, orig_of_eq_find _ _ _ _ hs hm]
  · rw [if_neg hmode, if_neg hmode]
    have hpiv : resolve_pivot H.pivot_mode H.cursor H.active W1 roots snap
        = resolve_pivot H.pivot_mode H.cursor H.active W2 roots snap := by
      apply resolve_pivot_congr _ _ _ _ _ _ _ hs
      intro a _ hfind
      apply hagree
      intro hmem
      obtain ⟨r, hr, hrname⟩ := List.mem_map.mp hmem
      have := hroots_keys r hr
      rw [hrname, hfind] at this
      simp at this
    rw [hpiv]

/-- The IDLE → PREVIEWING capture step: the first edit with no live snapshot
captures the roots' current matrices, tags the collection, and applies the
transform from the fresh snapshot. -/
theorem preview_edit_idle (H : Host) (col : Collection)
    (hsel : H.sel = some col) (e : FieldEdit) (s : PreviewState)
    (hroots : (get_root_objects (all_objects_of col)).isEmpty = false)
    (hpre : s.preview = []) :
    preview_edit H e s
      = { W := apply_transform_to_objects H.tg
                 (get_root_objects (all_objects_of col)) e.loc e.rot e.scale
                 H.pivot_mode H.cursor H.active
                 ((get_root_objects (all_objects_of col)).map
                   fun o => (o.name, s.W o.name))
                 s.W
        , preview := (get_root_objects (all_objects_of col)).map
            fun o => (o.name, s.W o.name)
        , preview_collection := col.name
        , loc := e.loc, rot := e.rot, scale := e.scale } := by
  unfold preview_edit apply_realtime_preview
  simp [hsel, hroots, hpre, Snap.truthy]

/-- A capture over a non-empty root list is a truthy (non-empty) snapshot. -/
theorem snap_capture_truthy (roots : List Obj) (g : Obj → Mat4)
    (hroots : roots.isEmpty = false) :
    Snap.truthy (roots.map fun o => (o.name, g o)) = true := by
  cases roots with
  | nil => simp at hroots
  | cons a l => simp [Snap.truthy]

/-! ### Claim theorems -/

/-- C1 — Preview idempotence: for a collection with a fixed root set whose
captured snapshot is live (the PREVIEWING invariant), the world matrix of
every snapshotted root object after the last of any sequence of field edits
equals the matrix after that single edit alone (independent of edits
`1..k-1`, no cumulative drift), and that matrix is `Full_k · baseline`:
`preview_full` (built from the k-th edit's deltas, the snapshot and the
pre-preview state) composed with the object's snapshot baseline. -/
theorem C1_preview_idempotence (H : Host) (col : Collection)
    (hsel : H.sel = some col)
    (hN : ((get_root_objects (all_objects_of col)).map Obj.name).Nodup)
    (s : PreviewState) (hinv : preview_invariant H col s)
    (es : List FieldEdit) (e : FieldEdit) (o : Obj)
    (ho : o ∈ get_root_objects (all_objects_of col)) :
    (run_preview H (es ++ [e]) s).W o.name = (run_preview H [e] s).W o.name
      ∧ (run_preview H [e] s).W o.name
          = preview_full H e (get_root_objects (all_objects_of col)) s.preview s.W o
              * orig_of s.preview o.name (s.W o.name) := by
  have hroots : (get_root_objects (all_objects_of col)).isEmpty = false := by
    cases hcs : get_root_objects (all_objects_of col) with
    | nil => rw [hcs] at ho; simp at ho
    | cons a l => simp
  obtain ⟨hpre, htag, hkeys⟩ := hinv
  have h1e : run_preview H [e] s = preview_edit H e s := by
    simp [run_preview]
  have hsecond := preview_edit_at_root H col hsel e s hroots hpre htag hN o ho
  constructor
  · have happ : run_preview H (es ++ [e]) s
        = preview_edit H e (run_preview H es s) := by
      simp [run_preview, List.foldl_append]
    obtain ⟨p1, p2, p3⟩ :=
      run_preview_previewing H col hsel hroots es s ⟨hpre, htag, hkeys⟩
    obtain ⟨hpre', htag', hkeys'⟩ :=
      run_preview_invariant H col hsel hroots es s ⟨hpre, htag, hkeys⟩
    have hroot_val :=
      preview_edit_at_root H col hsel e (run_preview H es s) hroots hpre' htag' hN o ho
    rw [happ, hroot_val, h1e, hsecond, p1]
    congr 1
    · exact preview_full_congr H e _ s.preview _ _ o hpre (hkeys o ho)
        (fun r hr => hkeys r hr) p3
    · obtain ⟨m, hm⟩ := Option.isSome_iff_exists.mp (hkeys o ho)
      rw [orig_of_eq_find _ _ _ _ hpre hm, orig_of_eq_find _ _ _ _ hpre hm]
  · rw [h1e]
    exact hsecond

/-- Witness for C1 at a concrete previewing session: two edits end in the
same state as the last edit alone, which is `Full · baseline`. -/
theorem C1_preview_idempotence_witness :
    (run_preview fixHost ([fixEdit2] ++ [fixEdit]) fixStatePreviewing).W fixB.name
        = (run_preview fixHost [fixEdit] fixStatePreviewing).W fixB.name
      ∧ (run_preview fixHost [fixEdit] fixStatePreviewing).W fixB.name
          = preview_full fixHost fixEdit (get_root_objects (all_objects_of fixCol))
              fixStatePreviewing.preview fixStatePreviewing.W fixB
              * orig_of fixStatePreviewing.preview fixB.name
                  (fixStatePreviewing.W fixB.name) :=
  C1_preview_idempotence fixHost fixCol rfl (by decide) fixStatePreviewing
    ⟨by decide, by decide, by decide⟩ [fixEdit2] fixEdit fixB (by decide)

/-- C5 — Reset round trip: from an IDLE state, after one or more preview
edits, the reset action restores every snapshotted root object's world matrix
to exactly its pre-preview baseline, clears the snapshot and its collection
tag, and resets the three delta fields to their defaults (zero translation,
zero rotation, unit scale). -/
theorem C5_reset_round_trip (H : Host) (col : Collection)
    (hsel : H.sel = some col)
    (hroots : (get_root_objects (all_objects_of col)).isEmpty = false)
    (hN : ((get_root_objects (all_objects_of col)).map Obj.name).Nodup)
    (hscene : ∀ o ∈ get_root_objects (all_objects_of col),
        H.sceneNames.contains o.name = true)
    (s0 : PreviewState) (hidle : s0.preview = [])
    (e : FieldEdit) (es : List FieldEdit) :
    (∀ o ∈ get_root_objects (all_objects_of col),
        (cancel_realtime_preview H (run_preview H (e :: es) s0)).W o.name
          = s0.W o.name)
      ∧ (cancel_realtime_preview H (run_preview H (e :: es) s0)).preview = []
      ∧ (cancel_realtime_preview H (run_preview H (e :: es) s0)).preview_collection = ""
      ∧ (cancel_realtime_preview H (run_preview H (e :: es) s0)).loc = ⟨0, 0, 0⟩
      ∧ (cancel_realtime_preview H (run_preview H (e :: es) s0)).rot = ⟨0, 0, 0⟩
      ∧ (cancel_realtime_preview H (run_preview H (e :: es) s0)).scale = ⟨1, 1, 1⟩ := by
  have hstep := preview_edit_idle H col hsel e s0 hroots hidle
  have hinv1 : preview_invariant H col (preview_edit H e s0) := by
    rw [hstep]
    refine ⟨snap_capture_truthy _ _ hroots, rfl, ?_⟩
    intro o ho
    rw [snap_capture_find _ _ o ho hN]
    rfl
  have hrun : run_preview H (e :: es) s0 = run_preview H es (preview_edit H e s0) := by
    simp [run_preview]
  obtain ⟨p1, p2, p3⟩ := run_preview_previewing H col hsel hroots es _ hinv1
  have hpreR : (run_preview H es (preview_edit H e s0)).preview
      = (get_root_objects (all_objects_of col)).map (fun o => (o.name, s0.W o.name)) := by
    rw [p1, hstep]
  have htruthy : Snap.truthy (run_preview H es (preview_edit H e s0)).preview = true := by
    rw [hpreR]
    exact snap_capture_truthy _ _ hroots
  have hcancel : cancel_realtime_preview H (run_preview H es (preview_edit H e s0))
      = { W := restore_objects_from_snapshot H.sceneNames
                 ((get_root_objects (all_objects_of col)).map
                   fun o => (o.name, s0.W o.name))
                 ((run_preview H es (preview_edit H e s0)).W)
        , preview := []
        , preview_collection := ""
        , loc := ⟨0, 0, 0⟩, rot := ⟨0, 0, 0⟩, scale := ⟨1, 1, 1⟩ } := by
    have hmt := snap_capture_truthy (get_root_objects (all_objects_of col))
      (fun o => s0.W o.name) hroots
    unfold cancel_realtime_preview
    simp [htruthy, hpreR, hmt]
  refine ⟨?_, ?_, ?_, ?_, ?_, ?_⟩
  · intro o ho
    rw [hrun, hcancel]
    apply restore_at
    · rw [snap_capture_keys]
      exact hN
    · exact List.mem_map.mpr ⟨o, ho, rfl⟩
    · exact hscene o ho
  · rw [hrun, hcancel]
  · rw [hrun, hcancel]
  · rw [hrun, hcancel]
  · rw [hrun, hcancel]
  · rw [hrun, hcancel]

/-- Witness for C5 at a concrete session: two preview edits from IDLE, then
reset, restore `A`, `B`, `C` and clear everything. -/
theorem C5_reset_round_trip_witness :
    (∀ o ∈ get_root_objects (all_objects_of fixCol),
        (cancel_realtime_preview fixHost
            (run_preview fixHost (fixEdit :: [fixEdit2]) fixStateIdle)).W o.name
          = fixStateIdle.W o.name)
      ∧ (cancel_realtime_preview fixHost
            (run_preview fixHost (fixEdit :: [fixEdit2]) fixStateIdle)).preview = []
      ∧ (cancel_realtime_preview fixHost
            (run_preview fixHost (fixEdit :: [fixEdit2]) fixStateIdle)).preview_collection = ""
      ∧ (cancel_realtime_preview fixHost
            (run_preview fixHost (fixEdit :: [fixEdit2]) fixStateIdle)).loc = ⟨0, 0, 0⟩
      ∧ (cancel_realtime_preview fixHost
            (run_preview fixHost (fixEdit :: [fixEdit2]) fixStateIdle)).rot = ⟨0, 0, 0⟩
      ∧ (cancel_realtime_preview fixHost
            (run_preview fixHost (fixEdit :: [fixEdit2]) fixStateIdle)).scale = ⟨1, 1, 1⟩ :=
  C5_reset_round_trip fixHost fixCol rfl (by decide) (by decide) (by decide)
    fixStateIdle rfl fixEdit [fixEdit2]

/-- C6 — INDIVIDUAL_ORIGINS: each root object's pivot is its own baseline
translation and the written matrix is
`Full_i = Translate(delta) · Translate(pivot_i) · RS · Translate(-pivot_i)`
composed onto its baseline (the translation delta `loc` entering identically
for every object); consequently a pure rotation (zero translation, unit
scale) leaves the object's world translation component unchanged while its
linear block (orientation) is multiplied by the rotation. -/
theorem C6_individual_origins (tg : Trig) (roots : List Obj)
    (loc rot scale cursor : Vec3) (active : Option String) (snap : Snap)
    (W : String → Mat4) (hN : (roots.map Obj.name).Nodup)
    (o : Obj) (ho : o ∈ roots) :
    (apply_transform_to_objects tg roots loc rot scale "INDIVIDUAL_ORIGINS"
          cursor active snap W o.name
        = build_full_transform loc (build_rotation_scale tg rot scale)
            (orig_of snap o.name (W o.name)).tr
          * orig_of snap o.name (W o.name))
      ∧ (apply_transform_to_objects tg roots ⟨0, 0, 0⟩ rot ⟨1, 1, 1⟩
            "INDIVIDUAL_ORIGINS" cursor active snap W o.name).tr
          = (orig_of snap o.name (W o.name)).tr
      ∧ (apply_transform_to_objects tg roots ⟨0, 0, 0⟩ rot ⟨1, 1, 1⟩
            "INDIVIDUAL_ORIGINS" cursor active snap W o.name).lin
          = (build_rotation_scale tg rot ⟨1, 1, 1⟩).lin
            * (orig_of snap o.name (W o.name)).lin := by
  have h1 := apply_transform_at_individual tg roots loc rot scale cursor active
    snap W hN o ho
  have h2 := apply_transform_at_individual tg roots ⟨0, 0, 0⟩ rot ⟨1, 1, 1⟩
    cursor active snap W hN o ho
  have h3 := full_about_own_origin (build_rotation_scale tg rot ⟨1, 1, 1⟩)
    (orig_of snap o.name (W o.name)) (build_rotation_scale_tr tg rot ⟨1, 1, 1⟩)
  refine ⟨h1, ?_, ?_⟩
  · rw [h2]
    exact h3.1
  · rw [h2]
    exact h3.2

/-- Witness for C6 on a concrete scene: object `B` with a quarter-turn
rotation about Z about its own origin. -/
theorem C6_individual_origins_witness :
    (apply_transform_to_objects fixTrig [fixA, fixB, fixC] ⟨5, 7, 9⟩ ⟨0, 0, 1⟩
          ⟨2, 2, 2⟩ "INDIVIDUAL_ORIGINS" ⟨0, 0, 0⟩ none [] fixW fixB.name
        = build_full_transform ⟨5, 7, 9⟩
            (build_rotation_scale fixTrig ⟨0, 0, 1⟩ ⟨2, 2, 2⟩)
            (orig_of [] fixB.name (fixW fixB.name)).tr
          * orig_of [] fixB.name (fixW fixB.name))
      ∧ (apply_transform_to_objects fixTrig [fixA, fixB, fixC] ⟨0, 0, 0⟩
            ⟨0, 0, 1⟩ ⟨1, 1, 1⟩ "INDIVIDUAL_ORIGINS" ⟨0, 0, 0⟩ none [] fixW
            fixB.name).tr
          = (orig_of [] fixB.name (fixW fixB.name)).tr
      ∧ (apply_transform_to_objects fixTrig [fixA, fixB, fixC] ⟨0, 0, 0⟩
            ⟨0, 0, 1⟩ ⟨1, 1, 1⟩ "INDIVIDUAL_ORIGINS" ⟨0, 0, 0⟩ none [] fixW
            fixB.name).lin
          = (build_rotation_scale fixTrig ⟨0, 0, 1⟩ ⟨1, 1, 1⟩).lin
            * (orig_of [] fixB.name (fixW fixB.name)).lin :=
  C6_individual_origins fixTrig [fixA, fixB, fixC] ⟨5, 7, 9⟩ ⟨0, 0, 1⟩
    ⟨2, 2, 2⟩ ⟨0, 0, 0⟩ none [] fixW (by decide) fixB (by decide)

/-- C7 — ACTIVE_ELEMENT fallback: with no active object supplied, the
ACTIVE_ELEMENT pivot resolves to exactly the MEDIAN_POINT pivot, for every
world state, root list and snapshot (both the snapshot and live cases). -/
theorem C7_active_element_fallback (cursor : Vec3) (W : String → Mat4)
    (roots : List Obj) (snap : Snap) :
    resolve_pivot "ACTIVE_ELEMENT" cursor none W roots snap
      = resolve_pivot "MEDIAN_POINT" cursor none W roots snap := by
  unfold resolve_pivot
  simp

/-- C10 — Totality over arbitrary mode tags: any pivot-mode string other than
CURSOR, ACTIVE_ELEMENT, BOUNDING_BOX_CENTER and INDIVIDUAL_ORIGINS resolves
to exactly the MEDIAN_POINT pivot, and the transform is applied through the
uniform-pivot branch, identically to MEDIAN_POINT; the resolver is a total
function, never failing on any mode string. -/
theorem C10_unknown_mode_median (mode : String) (cursor : Vec3)
    (active : Option String) (W : String → Mat4) (roots : List Obj)
    (snap : Snap) (tg : Trig) (loc rot scale : Vec3)
    (h1 : mode ≠ "CURSOR") (h2 : mode ≠ "ACTIVE_ELEMENT")
    (h3 : mode ≠ "BOUNDING_BOX_CENTER") (h4 : mode ≠ "INDIVIDUAL_ORIGINS") :
    resolve_pivot mode cursor active W roots snap
        = resolve_pivot "MEDIAN_POINT" cursor active W roots snap
      ∧ apply_transform_to_objects tg roots loc rot scale mode cursor active snap W
        = apply_transform_to_objects tg roots loc rot scale "MEDIAN_POINT"
            cursor active snap W := by
  have hres : resolve_pivot mode cursor active W roots snap
      = resolve_pivot "MEDIAN_POINT" cursor active W roots snap := by
    unfold resolve_pivot
    simp [h1, h2, h3]
  refine ⟨hres, ?_⟩
  rw [apply_transform_uniform _ _ _ _ _ _ _ _ _ _ h4,
    apply_transform_uniform _ _ _ _ _ _ _ _ _ _ (by decide), hres]

/-- Witness for C10 at the unknown mode string `"FOO"`. -/
theorem C10_unknown_mode_median_witness :
    resolve_pivot "FOO" ⟨0, 0, 0⟩ none fixW [fixA, fixB, fixC] fixSnap
        = resolve_pivot "MEDIAN_POINT" ⟨0, 0, 0⟩ none fixW [fixA, fixB, fixC] fixSnap
      ∧ apply_transform_to_objects fixTrig [fixA, fixB, fixC] ⟨1, 0, 0⟩ ⟨0, 0, 0⟩
          ⟨2, 2, 2⟩ "FOO" ⟨0, 0, 0⟩ none fixSnap fixW
        = apply_transform_to_objects fixTrig [fixA, fixB, fixC] ⟨1, 0, 0⟩ ⟨0, 0, 0⟩
            ⟨2, 2, 2⟩ "MEDIAN_POINT" ⟨0, 0, 0⟩ none fixSnap fixW :=
  C10_unknown_mode_median "FOO" ⟨0, 0, 0⟩ none fixW [fixA, fixB, fixC] fixSnap
    fixTrig ⟨1, 0, 0⟩ ⟨0, 0, 0⟩ ⟨2, 2, 2⟩ (by decide) (by decide) (by decide)
    (by decide)

/-- C8 — No-op rejection: with all three delta fields at default (zero
translation, zero rotation, unit scale), the apply action returns CANCELLED
and leaves the entire state — every world matrix, the preview snapshot and
the fields — untouched; whenever the selected collection has root objects,
the cancellation is reported as informational. -/
theorem C8_noop_rejection (H : Host) (col : Collection)
    (apply_transforms : Bool) (bake : (String → Mat4) → String → Mat4)
    (s : PreviewState) (hsel : H.sel = some col)
    (hloc : s.loc = ⟨0, 0, 0⟩) (hrot : s.rot = ⟨0, 0, 0⟩)
    (hscale : s.scale = ⟨1, 1, 1⟩) :
    (execute H apply_transforms bake s).status = .CANCELLED
      ∧ (execute H apply_transforms bake s).state = s
      ∧ ((get_root_objects (all_objects_of col)).isEmpty = false →
          (execute H apply_transforms bake s).reports = ["INFO"]) := by
  have hnoop : is_noop s.loc s.rot s.scale = true := by
    rw [hloc, hrot, hscale]
    simp [is_noop, Vec3.length_squared]
  unfold execute
  rw [hsel]
  by_cases hroots : (get_root_objects (all_objects_of col)).isEmpty
  · simp [hroots]
  · simp only [Bool.not_eq_true] at hroots
    simp [hroots, hnoop]

/-- Witness for C8: defaults on a non-empty collection cancel with an INFO
report and an unchanged state. -/
theorem C8_noop_rejection_witness :
    (execute fixHost false id fixStateIdle).status = .CANCELLED
      ∧ (execute fixHost false id fixStateIdle).state = fixStateIdle
      ∧ ((get_root_objects (all_objects_of fixCol)).isEmpty = false →
          (execute fixHost false id fixStateIdle).reports = ["INFO"]) :=
  C8_noop_rejection fixHost fixCol false id fixStateIdle rfl rfl rfl rfl

/-- C9 — Error-path atomicity: if no collection is selected, or the selected
collection flattens to an empty root set, the apply action returns CANCELLED
(with an error / warning report respectively) and returns the state
completely unchanged — no world matrix written, preview snapshot and fields
untouched. -/
theorem C9_error_path_atomicity (H : Host) (col : Collection)
    (apply_transforms : Bool) (bake : (String → Mat4) → String → Mat4)
    (s : PreviewState) :
    (H.sel = none →
        execute H apply_transforms bake s = ⟨.CANCELLED, ["ERROR"], s⟩)
      ∧ (H.sel = some col →
          (get_root_objects (all_objects_of col)).isEmpty = true →
          execute H apply_transforms bake s = ⟨.CANCELLED, ["WARNING"], s⟩) := by
  constructor
  · intro h
    unfold execute
    rw [h]
  · intro h hroots
    unfold execute
    rw [h]
    simp [hroots]

/-- Witness for C9: a host with nothing selected errors out unchanged; a host
with an empty collection selected warns and leaves the state unchanged. -/
theorem C9_error_path_atomicity_witness :
    execute fixHostNone false id fixStateIdle
        = ⟨.CANCELLED, ["ERROR"], fixStateIdle⟩
      ∧ execute fixHostEmpty false id fixStateIdle
        = ⟨.CANCELLED, ["WARNING"], fixStateIdle⟩ :=
  ⟨(C9_error_path_atomicity fixHostNone fixCol false id fixStateIdle).1 rfl,
   (C9_error_path_atomicity fixHostEmpty fixColEmpty false id fixStateIdle).2
     rfl (by decide)⟩

/-- The `snapshot = _preview.copy() if _preview else None` idiom is the
identity on the embedded snapshot (both `None` and `{}` are modelled by
`[]`). -/
theorem snap_if_self (s : Snap) : (if s.truthy then s else []) = s := by
  cases s <;> simp [Snap.truthy]

/-- The final world-state map of a successful `execute` (selected collection
with roots, non-default deltas, baking disabled): the transform is applied
from the snapshot (if any) on top of the restore-to-baseline state. -/
theorem execute_success_W (H : Host) (col : Collection)
    (bake : (String → Mat4) → String → Mat4) (s : PreviewState)
    (hsel : H.sel = some col)
    (hroots : (get_root_objects (all_objects_of col)).isEmpty = false)
    (hnoop : is_noop s.loc s.rot s.scale = false) :
    (execute H false bake s).status = .FINISHED
      ∧ (execute H false bake s).state.W
        = apply_transform_to_objects H.tg (get_root_objects (all_objects_of col))
            s.loc s.rot s.scale H.pivot_mode H.cursor H.active s.preview
            (if s.preview.truthy then
              restore_objects_from_snapshot H.sceneNames s.preview s.W
            else s.W) := by
  unfold execute
  rw [hsel]
  cases hpre : s.preview.truthy with
  | true => simp [hroots, hnoop, snap_if_self, hpre]
  | false =>
    have hnil : s.preview = [] := by
      cases hp : s.preview with
      | nil => rfl
      | cons a l => rw [hp] at hpre; simp [Snap.truthy] at hpre
    simp [hroots, hnoop, hpre, hnil, Snap.truthy]

/-- C2 — Commit correctness: for a selected collection with a non-empty root
set, a uniform (non-INDIVIDUAL_ORIGINS) pivot mode, non-default deltas and
baking disabled, a successful apply returns FINISHED and writes each root's
world matrix to exactly `Full(t,r,s,p) · B[root]`, where
`Full = Translate(t) · Translate(p) · RS · Translate(-p)` with
`RS = Rz·Ry·Rx·Sx·Sy·Sz`, `p` is the uniform pivot the operation resolves,
and `B[root]` is the root's baseline (its snapshot matrix when a preview
snapshot is live, else its pre-apply live matrix); no non-root object's
matrix is written. -/
theorem C2_commit_correctness (H : Host) (col : Collection)
    (bake : (String → Mat4) → String → Mat4) (s : PreviewState)
    (hsel : H.sel = some col)
    (hroots : (get_root_objects (all_objects_of col)).isEmpty = false)
    (hmode : H.pivot_mode ≠ "INDIVIDUAL_ORIGINS")
    (hnoop : is_noop s.loc s.rot s.scale = false)
    (hN : ((get_root_objects (all_objects_of col)).map Obj.name).Nodup)
    (hkeys : ∀ k ∈ s.preview.keys,
        k ∈ (get_root_objects (all_objects_of col)).map Obj.name) :
    (execute H false bake s).status = .FINISHED
      ∧ (∀ o ∈ get_root_objects (all_objects_of col),
          (execute H false bake s).state.W o.name
            = build_full_transform s.loc (build_rotation_scale H.tg s.rot s.scale)
                (resolve_pivot H.pivot_mode H.cursor H.active
                  (if s.preview.truthy then
                    restore_objects_from_snapshot H.sceneNames s.preview s.W
                  else s.W)
                  (get_root_objects (all_objects_of col)) s.preview)
              * orig_of s.preview o.name (s.W o.name))
      ∧ (∀ n, n ∉ (get_root_objects (all_objects_of col)).map Obj.name →
          (execute H false bake s).state.W n = s.W n) := by
  obtain ⟨hstatus, hW⟩ := execute_success_W H col bake s hsel hroots hnoop
  refine ⟨hstatus, ?_, ?_⟩
  · intro o ho
    rw [hW, apply_transform_at_uniform _ _ _ _ _ _ _ _ _ _ hmode hN o ho]
    congr 1
    cases hpre : s.preview.truthy with
    | false =>
      simp [hpre]
    | true =>
      simp only [hpre, if_true]
      cases hfind : Snap.find s.preview o.name with
      | some m =>
        rw [orig_of_eq_find _ _ _ _ hpre hfind, orig_of_eq_find _ _ _ _ hpre hfind]
      | none =>
        rw [orig_of_find_none _ _ _ hfind, orig_of_find_none _ _ _ hfind]
        apply restore_pres
        intro hk
        have := (Snap.find_isSome_iff s.preview o.name).mpr hk
        rw [hfind] at this
        simp at this
  · intro n hn
    rw [hW, apply_transform_pres _ _ _ _ _ _ _ _ _ _ _ hn]
    cases hpre : s.preview.truthy with
    | false => simp [hpre]
    | true =>
      simp only [hpre, if_true]
      apply restore_pres
      intro hk
      exact hn (hkeys n hk)

/-- Witness for C2 on a concrete commit: three roots, median pivot, a live
snapshot, translation and scale deltas. -/
theorem C2_commit_correctness_witness :
    (execute fixHost false id fixStatePreviewing2).status = .FINISHED
      ∧ (∀ o ∈ get_root_objects (all_objects_of fixCol),
          (execute fixHost false id fixStatePreviewing2).state.W o.name
            = build_full_transform fixStatePreviewing2.loc
                (build_rotation_scale fixHost.tg fixStatePreviewing2.rot
                  fixStatePreviewing2.scale)
                (resolve_pivot fixHost.pivot_mode fixHost.cursor fixHost.active
                  (if fixStatePreviewing2.preview.truthy then
                    restore_objects_from_snapshot fixHost.sceneNames
                      fixStatePreviewing2.preview fixStatePreviewing2.W
                  else fixStatePreviewing2.W)
                  (get_root_objects (all_objects_of fixCol))
                  fixStatePreviewing2.preview)
              * orig_of fixStatePreviewing2.preview o.name
                  (fixStatePreviewing2.W o.name))
      ∧ (∀ n, n ∉ (get_root_objects (all_objects_of fixCol)).map Obj.name →
          (execute fixHost false id fixStatePreviewing2).state.W n
            = fixStatePreviewing2.W n) :=
  C2_commit_correctness fixHost fixCol id fixStatePreviewing2 rfl (by decide)
    (by decide) (by simp [is_noop, Vec3.length_squared, fixStatePreviewing2])
    (by decide) (by decide)

/-- C4 (counterexample) — The claim that a non-empty snapshot makes every
position-dependent pivot independent of live matrices is false: in
ACTIVE_ELEMENT mode with an active object absent from the snapshot,
`_resolve_pivot` falls back to the active object's live matrix, so two runs
with the same snapshot but different live matrices resolve different pivots
(here `(2,0,0)` vs `(0,0,0)`). -/
theorem C4_snapshot_noninterference_counterexample :
    resolve_pivot "ACTIVE_ELEMENT" ⟨0, 0, 0⟩ (some "B") fixW [fixA]
        [("A", 1)]
      ≠ resolve_pivot "ACTIVE_ELEMENT" ⟨0, 0, 0⟩ (some "B") (fun _ => 1) [fixA]
        [("A", 1)] := by
  have h1 : resolve_pivot "ACTIVE_ELEMENT" ⟨0, 0, 0⟩ (some "B") fixW [fixA]
      [("A", 1)] = ⟨2, 0, 0⟩ := by
    simp [resolve_pivot, orig_of, Snap.truthy, Snap.find, List.lookup, fixW,
      Translation]
  have h2 : resolve_pivot "ACTIVE_ELEMENT" ⟨0, 0, 0⟩ (some "B") (fun _ => 1)
      [fixA] [("A", 1)] = ⟨0, 0, 0⟩ := by
    simp [resolve_pivot, orig_of, Snap.truthy, Snap.find, List.lookup]
  rw [h1, h2]
  intro h
  have := congrArg Vec3.x h
  norm_num at this

/-- C4 (amended) — Snapshot noninterference holds under the condition the
capture step establishes: if the non-empty snapshot contains every root
object and (when one is supplied) the active object, then the resolved pivot
of every mode, and every per-object INDIVIDUAL_ORIGINS pivot, depends only on
the snapshot — two runs over different live world states agree. -/
theorem C4_snapshot_noninterference (mode : String) (cursor : Vec3)
    (active : Option String) (roots : List Obj) (snap : Snap)
    (W1 W2 : String → Mat4)
    (hs : snap.truthy = true)
    (hkeys : ∀ o ∈ roots, (snap.find o.name).isSome = true)
    (hactive : ∀ a, active = some a → (snap.find a).isSome = true) :
    resolve_pivot mode cursor active W1 roots snap
        = resolve_pivot mode cursor active W2 roots snap
      ∧ ∀ o ∈ roots,
          (orig_of snap o.name (W1 o.name)).tr
            = (orig_of snap o.name (W2 o.name)).tr := by
  constructor
  · apply resolve_pivot_congr _ _ _ _ _ _ _ hs
    intro a ha hfind
    have hsome := hactive a ha
    rw [hfind] at hsome
    simp at hsome
  · intro o ho
    obtain ⟨m, hm⟩ := Option.isSome_iff_exists.mp (hkeys o ho)
    rw [orig_of_eq_find _ _ _ _ hs hm, orig_of_eq_find _ _ _ _ hs hm]

/-- Witness for the amended C4: with all roots and the active object
snapshotted, two very different live states resolve identical pivots. -/
theorem C4_snapshot_noninterference_witness :
    resolve_pivot "ACTIVE_ELEMENT" ⟨0, 0, 0⟩ (some "B") fixW
        [fixA, fixB, fixC] fixSnap
      = resolve_pivot "ACTIVE_ELEMENT" ⟨0, 0, 0⟩ (some "B") (fun _ => 1)
          [fixA, fixB, fixC] fixSnap
      ∧ ∀ o ∈ [fixA, fixB, fixC],
          (orig_of fixSnap o.name (fixW o.name)).tr
            = (orig_of fixSnap o.name ((fun _ => (1 : Mat4)) o.name)).tr :=
  C4_snapshot_noninterference "ACTIVE_ELEMENT" ⟨0, 0, 0⟩ (some "B")
    [fixA, fixB, fixC] fixSnap fixW (fun _ => 1) (by decide) (by decide)
    (by decide)

theorem Vec3.add_zero (a : Vec3) : a + 0 = a := by
  ext <;> simp

theorem Vec3.zero_add (a : Vec3) : 0 + a = a := by
  ext <;> simp

theorem Vec3.add_assoc (a b c : Vec3) : a + b + c = a + (b + c) := by
  ext <;> simp <;> ring

/-- The source's `total += ...` accumulation equals the right fold of the
spec-side sum. -/
theorem foldl_add_eq (l : List Vec3) (init : Vec3) :
    l.foldl (fun t v => t + v) init = init + l.foldr (fun v t => v + t) 0 := by
  induction l generalizing init with
  | nil => simp [Vec3.add_zero]
  | cons v tl ih =>
    simp only [List.foldl_cons, List.foldr_cons, ih, Vec3.add_assoc]

/-- The MEDIAN_POINT branch of `_resolve_pivot` computes the arithmetic mean
of the resolved pair matrices' translations (over the ROOT objects). -/
theorem resolve_median_eq (cursor : Vec3) (active : Option String)
    (W : String → Mat4) (roots : List Obj) (snap : Snap) :
    resolve_pivot "MEDIAN_POINT" cursor active W roots snap
      = mean_vec ((resolved_pairs roots snap W).map fun pm => pm.2.tr) := by
  unfold resolve_pivot mean_vec
  rw [show (if snap.truthy then
        roots.filterMap fun o => (snap.find o.name).map (fun m => (o, m))
      else roots.map fun o => (o, W o.name)) = resolved_pairs roots snap W from rfl]
  simp only [String.reduceEq, if_false, reduceIte]
  by_cases hp : (resolved_pairs roots snap W).isEmpty
  · have hnil : resolved_pairs roots snap W = [] := by
      cases h : resolved_pairs roots snap W
      · rfl
      · rw [h] at hp; simp at hp
    simp [hp, hnil, Vec3.divQ]
  · simp only [hp, Bool.false_eq_true, if_false]
    rw [show (fun (t : Vec3) (pm : Obj × Mat4) => t + pm.2.tr)
          = (fun t pm => (fun a b => a + b) t ((fun (pm : Obj × Mat4) => pm.2.tr) pm)) from rfl,
      ← List.foldl_map, foldl_add_eq, Vec3.zero_add, List.length_map]

/-- Accumulating corner points pair-by-pair equals one fold over the
flattened point list. -/
theorem bbox_double_fold (pairs : List (Obj × Mat4)) (acc : Option (Vec3 × Vec3)) :
    pairs.foldl (fun a pm => (bbox_points pm.1 pm.2).foldl bbox_fold a) acc
      = (pairs.foldr (fun pm r => bbox_points pm.1 pm.2 ++ r) []).foldl bbox_fold acc := by
  induction pairs generalizing acc with
  | nil => rfl
  | cons pm tl ih =>
    simp only [List.foldl_cons, List.foldr_cons, List.foldl_append, ih]

/-- Folding the min/max accumulator from a seeded pair splits into a min fold
and a max fold. -/
theorem bbox_fold_some (l : List Vec3) (mn mx : Vec3) :
    l.foldl bbox_fold (some (mn, mx)) = some (l.foldl vmin mn, l.foldl vmax mx) := by
  induction l generalizing mn mx with
  | nil => rfl
  | cons p tl ih =>
    simp only [List.foldl_cons, bbox_fold, ih]

/-- `_bounding_box_center_from_matrices` is the AABB midpoint of the
flattened corner-point list. -/
theorem bbox_center_eq_aabb (pairs : List (Obj × Mat4)) :
    bounding_box_center_from_matrices pairs
      = aabb_midpoint (pairs.foldr (fun pm r => bbox_points pm.1 pm.2 ++ r) []) := by
  unfold bounding_box_center_from_matrices
  rw [bbox_double_fold]
  cases hpts : pairs.foldr (fun pm r => bbox_points pm.1 pm.2 ++ r) [] with
  | nil => simp [aabb_midpoint]
  | cons p rest =>
    have hseed : bbox_fold none p = some (p, p) := rfl
    simp only [List.foldl_cons, hseed, bbox_fold_some, aabb_midpoint]

/-- A pair always contributes at least one point (corner list or the
translation alone), so the flattened point list is empty iff the pair list
is. -/
theorem bbox_flat_nil_iff (pairs : List (Obj × Mat4)) :
    pairs.foldr (fun pm r => bbox_points pm.1 pm.2 ++ r) [] = [] ↔ pairs = [] := by
  cases pairs with
  | nil => simp
  | cons pm tl =>
    simp only [List.foldr_cons, List.append_eq_nil]
    constructor
    · intro h
      exfalso
      have hne : bbox_points pm.1 pm.2 ≠ [] := by
        unfold bbox_points
        by_cases hb : pm.1.bound_box.isEmpty
        · simp [hb]
        · have : pm.1.bound_box ≠ [] := by
            cases hs : pm.1.bound_box
            · rw [hs] at hb; simp at hb
            · simp
          simp [hb, this]
      exact hne h.1
    · intro h
      simp at h

/-- The BOUNDING_BOX_CENTER branch of `_resolve_pivot` computes the AABB
midpoint of all corner points of the resolved pairs (over the ROOT
objects). -/
theorem resolve_bbox_eq (cursor : Vec3) (active : Option String)
    (W : String → Mat4) (roots : List Obj) (snap : Snap) :
    resolve_pivot "BOUNDING_BOX_CENTER" cursor active W roots snap
      = aabb_midpoint ((resolved_pairs roots snap W).foldr
          (fun pm r => bbox_points pm.1 pm.2 ++ r) []) := by
  unfold resolve_pivot
  rw [show (if snap.truthy then
        roots.filterMap fun o => (snap.find o.name).map (fun m => (o, m))
      else roots.map fun o => (o, W o.name)) = resolved_pairs roots snap W from rfl]
  simp only [String.reduceEq, if_false, reduceIte]
  by_cases hp : (resolved_pairs roots snap W).isEmpty
  · have hnil : resolved_pairs roots snap W = [] := by
      cases h : resolved_pairs roots snap W
      · rfl
      · rw [h] at hp; simp at hp
    simp [hp, hnil, aabb_midpoint]
  · simp only [hp, Bool.false_eq_true, if_false]
    exact bbox_center_eq_aabb _

/-- C3 (counterexample) — The pivot is NOT computed over the full flattened
object set: in a collection where `Child` (at `(10,0,0)`) is parented to root
`A` (at the origin), the code resolves the MEDIAN_POINT pivot over the root
objects only, giving `(0,0,0)`, while the claimed full-set mean is
`(5,0,0)`. -/
theorem C3_full_set_pivot_counterexample :
    resolve_pivot "MEDIAN_POINT" ⟨0, 0, 0⟩ none fixW
        (get_root_objects (all_objects_of fixColParented)) [] = ⟨0, 0, 0⟩
      ∧ claim_median_full_set (all_objects_of fixColParented) fixW = ⟨5, 0, 0⟩
      ∧ resolve_pivot "MEDIAN_POINT" ⟨0, 0, 0⟩ none fixW
          (get_root_objects (all_objects_of fixColParented)) []
        ≠ claim_median_full_set (all_objects_of fixColParented) fixW := by
  have hobjs : all_objects_of fixColParented = [fixA, fixChild] := by decide
  have hroots : get_root_objects (all_objects_of fixColParented) = [fixA] := by decide
  have h1 : resolve_pivot "MEDIAN_POINT" ⟨0, 0, 0⟩ none fixW [fixA] []
      = ⟨0, 0, 0⟩ := by
    rw [resolve_median_eq]
    simp [resolved_pairs, Snap.truthy, mean_vec, fixA, fixW, Vec3.divQ,
      Vec3.add_zero]
  have h2 : claim_median_full_set [fixA, fixChild] fixW = ⟨5, 0, 0⟩ := by
    simp [claim_median_full_set, mean_vec, fixA, fixChild, fixW, Translation,
      Vec3.divQ, Vec3.add_zero]
    norm_num
  refine ⟨by rw [hroots]; exact h1, by rw [hobjs]; exact h2, ?_⟩
  rw [hroots, hobjs, h1, h2]
  intro h
  have hx := congrArg Vec3.x h
  norm_num at hx

/-- C3 (amended) — Root-set pivots: the MEDIAN_POINT pivot is the arithmetic
mean of the translation components of the resolved matrices of the ROOT
objects (snapshot matrices when a snapshot is supplied, else live), the
BOUNDING_BOX_CENTER pivot is the midpoint of the axis-aligned bounding box
enclosing those root objects' corner points, and an empty resolved set yields
the origin in both modes. -/
theorem C3_pivot_over_roots (cursor : Vec3) (active : Option String)
    (W : String → Mat4) (roots : List Obj) (snap : Snap) :
    resolve_pivot "MEDIAN_POINT" cursor active W roots snap
        = mean_vec ((resolved_pairs roots snap W).map fun pm => pm.2.tr)
      ∧ resolve_pivot "BOUNDING_BOX_CENTER" cursor active W roots snap
        = aabb_midpoint ((resolved_pairs roots snap W).foldr
            (fun pm r => bbox_points pm.1 pm.2 ++ r) [])
      ∧ (resolved_pairs roots snap W = [] →
          resolve_pivot "MEDIAN_POINT" cursor active W roots snap = ⟨0, 0, 0⟩
            ∧ resolve_pivot "BOUNDING_BOX_CENTER" cursor active W roots snap
              = ⟨0, 0, 0⟩) := by
  refine ⟨resolve_median_eq _ _ _ _ _, resolve_bbox_eq _ _ _ _ _, ?_⟩
  intro hnil
  rw [resolve_median_eq, resolve_bbox_eq, hnil]
  constructor
  · simp [mean_vec, Vec3.divQ]
  · simp [aabb_midpoint]

/-- Witness for the amended C3 at a concrete empty root set (exercising the
empty-set clause) — the theorem itself is hypothesis-free. -/
theorem C3_pivot_over_roots_witness :
    resolve_pivot "MEDIAN_POINT" ⟨0, 0, 0⟩ none fixW [] []
        = mean_vec ((resolved_pairs [] [] fixW).map fun pm => pm.2.tr)
      ∧ resolve_pivot "BOUNDING_BOX_CENTER" ⟨0, 0, 0⟩ none fixW [] []
        = aabb_midpoint ((resolved_pairs [] [] fixW).foldr
            (fun pm r => bbox_points pm.1 pm.2 ++ r) [])
      ∧ (resolved_pairs [] [] fixW = [] →
          resolve_pivot "MEDIAN_POINT" ⟨0, 0, 0⟩ none fixW [] [] = ⟨0, 0, 0⟩
            ∧ resolve_pivot "BOUNDING_BOX_CENTER" ⟨0, 0, 0⟩ none fixW [] []
              = ⟨0, 0, 0⟩) :=
  C3_pivot_over_roots ⟨0, 0, 0⟩ none fixW [] []

end BCTT
